import Mathlib

/-!
Shallow embedding of `src/camera.rs` from the `sevetis/ray-tracing` repository.

The `f64` arithmetic of the geometric derivations is idealized as real
arithmetic; a separate NaN-aware scalar type `F` models the IEEE behaviour
needed for the degenerate-camera analysis.  The vector/colour library
(`vec3.rs`, `color.rs`), the scene (`Hittable`) and the integrator
(`ray_color`) are external collaborators of the file under study: vectors
are embedded as triples of reals following the spec's description of the
arithmetic library, and the integrator is an abstract function parameter.
Randomness (`Vec3::random`, `Vec3::random_in_unit_disk`) is modelled as an
oracle stream of draws supplied to the render loop.
-/

namespace RayTracing

/-! ### Compile-time constants (camera.rs lines 9-16) -/

/-- Constant `ASPECT_RATIO: f64 = 16.0 / 9.0` (line 9). -/
noncomputable def ASPECT_RATIO : ℝ := 16 / 9

/-- Constant `V_FOV: f64 = 20.0` (line 10). -/
noncomputable def V_FOV : ℝ := 20

/-- Constant `WIDTH: f64 = 1920.0` (line 11). -/
noncomputable def WIDTH : ℝ := 1920

/-- Constant `THREADS_NUM: i64 = 12` (line 12); it is only ever used as a
nonnegative count, so it is embedded as a natural number. -/
def THREADS_NUM : ℕ := 12

/-- Constant `SAMPLE_NUM: u16 = 500` (line 13). -/
def SAMPLE_NUM : ℕ := 500

/-- Constant `REFLECT_DEPTH: u8 = 20` (line 14). -/
def REFLECT_DEPTH : ℕ := 20

/-- Constant `FOCUS_DIST: f64 = 10.0` (line 15). -/
noncomputable def FOCUS_DIST : ℝ := 10

/-- Constant `DEFOCUS_ANGLE: f64 = 0.6` (line 16). -/
noncomputable def DEFOCUS_ANGLE : ℝ := 0.6

/-! ### Vector model

Modelled from the spec: `vec3.rs` is not under `src/`; the spec (§2 item 1)
describes 3-component real tuples with addition, scalar/component
multiplication, cross/dot product and normalization. -/

/-- Modelled from the spec: a 3-component real tuple (`vec3.rs` `Vec3`). -/
@[ext] structure Vec3 where
  x : ℝ
  y : ℝ
  z : ℝ

/-- Modelled from the spec: `Point` is the same 3-component tuple used with
position intent. -/
abbrev Point := Vec3

/-- Modelled from the spec: `Color` is the same 3-component tuple used with
colour intent (`color.rs`). -/
abbrev Color := Vec3

/-- Modelled from the spec: the black colour constant `BLACK` of `color.rs`
("initialized to black"). -/
def BLACK : Color := ⟨0, 0, 0⟩

instance : Inhabited Vec3 := ⟨BLACK⟩

/-- Componentwise vector addition. -/
def Vec3.add (a b : Vec3) : Vec3 := ⟨a.x + b.x, a.y + b.y, a.z + b.z⟩

instance : Add Vec3 := ⟨Vec3.add⟩

/-- Componentwise vector subtraction. -/
def Vec3.sub (a b : Vec3) : Vec3 := ⟨a.x - b.x, a.y - b.y, a.z - b.z⟩

instance : Sub Vec3 := ⟨Vec3.sub⟩

instance : Zero Vec3 := ⟨BLACK⟩

/-- Modelled from the spec: `Vec3::reverse`, componentwise negation (used as
`v.reverse()` at camera.rs line 50). -/
def Vec3.reverse (a : Vec3) : Vec3 := ⟨-a.x, -a.y, -a.z⟩

/-- Scalar-times-vector multiplication (`f64 * Vec3`). -/
instance : HMul ℝ Vec3 Vec3 := ⟨fun s v => ⟨s * v.x, s * v.y, s * v.z⟩⟩

/-- Vector-times-scalar multiplication (`Vec3 * f64`). -/
instance : HMul Vec3 ℝ Vec3 := ⟨fun v s => ⟨v.x * s, v.y * s, v.z * s⟩⟩

/-- Vector-by-scalar division (`Vec3 / f64`). -/
noncomputable instance : HDiv Vec3 ℝ Vec3 := ⟨fun v s => ⟨v.x / s, v.y / s, v.z / s⟩⟩

/-- Modelled from the spec: dot product of `vec3.rs`. -/
def Vec3.dot (a b : Vec3) : ℝ := a.x * b.x + a.y * b.y + a.z * b.z

/-- Modelled from the spec: cross product of `vec3.rs` (used as
`vup.cross(&w)` at camera.rs line 46). -/
def Vec3.cross (a b : Vec3) : Vec3 :=
  ⟨a.y * b.z - a.z * b.y, a.z * b.x - a.x * b.z, a.x * b.y - a.y * b.x⟩

/-- Modelled from the spec: vector length, the Euclidean norm. -/
noncomputable def Vec3.length (a : Vec3) : ℝ := Real.sqrt (a.dot a)

/-- Modelled from the spec: `Vec3::unit`, normalization `v / |v|` (used at
camera.rs lines 45-46). -/
noncomputable def Vec3.unit (a : Vec3) : Vec3 := a / a.length

@[simp] lemma Vec3.add_def (a b : Vec3) :
    a + b = ⟨a.x + b.x, a.y + b.y, a.z + b.z⟩ := rfl

@[simp] lemma Vec3.sub_def (a b : Vec3) :
    a - b = ⟨a.x - b.x, a.y - b.y, a.z - b.z⟩ := rfl

@[simp] lemma Vec3.smul_def (s : ℝ) (v : Vec3) :
    s * v = (⟨s * v.x, s * v.y, s * v.z⟩ : Vec3) := rfl

@[simp] lemma Vec3.mul_scalar_def (v : Vec3) (s : ℝ) :
    v * s = (⟨v.x * s, v.y * s, v.z * s⟩ : Vec3) := rfl

@[simp] lemma Vec3.div_scalar_def (v : Vec3) (s : ℝ) :
    v / s = (⟨v.x / s, v.y / s, v.z / s⟩ : Vec3) := rfl

@[simp] lemma Vec3.zero_def : (0 : Vec3) = ⟨0, 0, 0⟩ := rfl

instance : AddCommMonoid Vec3 where
  add_assoc a b c := by ext <;> simp <;> ring
  zero_add a := by ext <;> simp
  add_zero a := by ext <;> simp
  add_comm a b := by ext <;> simp <;> ring
  nsmul := nsmulRec

/-! ### Rust f64 helpers -/

/-- Rust `f64::to_radians`: degrees to radians. -/
noncomputable def toRadians (x : ℝ) : ℝ := x * (Real.pi / 180)

/-! ### Camera (camera.rs lines 18-74)

The `let`-bindings of `Camera::new` are embedded as the definitions in
namespace `Derive`, each one mirroring a single line of the source. -/

/-- The `Camera` struct (camera.rs lines 18-30). -/
structure Camera where
  eye : Point
  width : ℝ
  height : ℝ
  pixel_start : Point
  delta_u : Vec3
  delta_v : Vec3
  sample_num : ℕ
  reflect_depth : ℕ
  defocus_angle : ℝ
  disk_u : Vec3
  disk_v : Vec3

/-- Line 35: `let height = (width / ASPECT_RATIO).max(1.0).floor();`,
kept parametric in width and aspect ratio for the dimension analysis. -/
noncomputable def derivedHeight (width aspect : ℝ) : ℝ :=
  ((⌊max (width / aspect) 1⌋ : ℤ) : ℝ)

namespace Derive

/-- Line 39: `let theta = V_FOV.to_radians();` -/
noncomputable def theta : ℝ := toRadians V_FOV

/-- Line 40: `let h = (theta / 2.0).tan();` -/
noncomputable def hTan : ℝ := Real.tan (theta / 2)

/-- Line 41: `let viewport_height = 2.0 * h * focus_dist;` -/
noncomputable def viewport_height : ℝ := 2 * hTan * FOCUS_DIST

/-- Line 42: `let viewport_width = viewport_height * ASPECT_RATIO;` -/
noncomputable def viewport_width : ℝ := viewport_height * ASPECT_RATIO

/-- Line 44: `let vup = Vec3::new([0.0, 1.0, 0.0]);` -/
def vup : Vec3 := ⟨0, 1, 0⟩

/-- Line 45: `let w = (look_from - look_at).unit();` -/
noncomputable def w (look_from look_at : Point) : Vec3 := (look_from - look_at).unit

/-- Line 46: `let u = vup.cross(&w).unit();` -/
noncomputable def u (look_from look_at : Point) : Vec3 :=
  (vup.cross (w look_from look_at)).unit

/-- Line 47: `let v = w.cross(&u);` -/
noncomputable def v (look_from look_at : Point) : Vec3 :=
  (w look_from look_at).cross (u look_from look_at)

/-- Line 49: `let viewport_u = viewport_width * u;` -/
noncomputable def viewport_u (look_from look_at : Point) : Vec3 :=
  viewport_width * u look_from look_at

/-- Line 50: `let viewport_v = viewport_height * v.reverse();` -/
noncomputable def viewport_v (look_from look_at : Point) : Vec3 :=
  viewport_height * (v look_from look_at).reverse

/-- Line 52: `let delta_u = viewport_u / width;` -/
noncomputable def delta_u (look_from look_at : Point) : Vec3 :=
  viewport_u look_from look_at / WIDTH

/-- Line 53: `let delta_v = viewport_v / height;` -/
noncomputable def delta_v (look_from look_at : Point) : Vec3 :=
  viewport_v look_from look_at / derivedHeight WIDTH ASPECT_RATIO

/-- Line 54: `let viewport_upper_left = look_from - focus_dist * w - viewport_u / 2.0 - viewport_v / 2.0;` -/
noncomputable def viewport_upper_left (look_from look_at : Point) : Vec3 :=
  look_from - FOCUS_DIST * w look_from look_at
    - viewport_u look_from look_at / (2 : ℝ) - viewport_v look_from look_at / (2 : ℝ)

/-- Line 55: `let start = viewport_upper_left + (delta_u + delta_v) / 2.0;` -/
noncomputable def start (look_from look_at : Point) : Vec3 :=
  viewport_upper_left look_from look_at
    + (delta_u look_from look_at + delta_v look_from look_at) / (2 : ℝ)

/-- Line 57: `let defocus_radius = focus_dist * f64::from(defocus_angle / 2.0).to_radians().tan();` -/
noncomputable def defocus_radius : ℝ :=
  FOCUS_DIST * Real.tan (toRadians (DEFOCUS_ANGLE / 2))

/-- Line 58: `let defocus_disk_u = u * defocus_radius;` -/
noncomputable def defocus_disk_u (look_from look_at : Point) : Vec3 :=
  u look_from look_at * defocus_radius

/-- Line 59: `let defocus_disk_v = v * defocus_radius;` -/
noncomputable def defocus_disk_v (look_from look_at : Point) : Vec3 :=
  v look_from look_at * defocus_radius

end Derive

/-- `Camera::new` (camera.rs lines 33-74): assembles the struct from the
derivation chain above. -/
noncomputable def Camera.new (look_from look_at : Point) : Camera :=
  ⟨look_from,
   WIDTH,
   derivedHeight WIDTH ASPECT_RATIO,
   Derive.start look_from look_at,
   Derive.delta_u look_from look_at,
   Derive.delta_v look_from look_at,
   SAMPLE_NUM,
   REFLECT_DEPTH,
   DEFOCUS_ANGLE,
   Derive.defocus_disk_u look_from look_at,
   Derive.defocus_disk_v look_from look_at⟩

/-! ### Spec-side formulas for the camera geometry (spec §4.1 steps 5-7)

These follow the spec's words, to be compared with the source-derived
fields of `Camera.new`. -/

namespace SpecSide

/-- Spec §4.1 step 5: `delta_u = viewport_u / width`. -/
noncomputable def delta_u (look_from look_at : Point) : Vec3 :=
  Derive.viewport_u look_from look_at / WIDTH

/-- Spec §4.1 step 5: `delta_v = viewport_v / height`. -/
noncomputable def delta_v (look_from look_at : Point) : Vec3 :=
  Derive.viewport_v look_from look_at / derivedHeight WIDTH ASPECT_RATIO

/-- Spec §4.1 step 6: `upper_left = eye - focus_dist*w - viewport_u/2 - viewport_v/2`;
`pixel_start = upper_left + (delta_u + delta_v)/2`. -/
noncomputable def pixel_start (look_from look_at : Point) : Vec3 :=
  (look_from - FOCUS_DIST * Derive.w look_from look_at
      - Derive.viewport_u look_from look_at / (2 : ℝ)
      - Derive.viewport_v look_from look_at / (2 : ℝ))
    + (delta_u look_from look_at + delta_v look_from look_at) / (2 : ℝ)

/-- Spec §4.1 step 7: `disk_radius = focus_dist * tan(radians(defocus_angle/2))`. -/
noncomputable def disk_radius : ℝ :=
  FOCUS_DIST * Real.tan (toRadians (DEFOCUS_ANGLE / 2))

/-- Spec §4.1 step 7: `disk_u = u * disk_radius`. -/
noncomputable def disk_u (look_from look_at : Point) : Vec3 :=
  Derive.u look_from look_at * disk_radius

/-- Spec §4.1 step 7: `disk_v = v * disk_radius`. -/
noncomputable def disk_v (look_from look_at : Point) : Vec3 :=
  Derive.v look_from look_at * disk_radius

end SpecSide

/-- C4: the camera constructor derives the pixel-grid geometry exactly as the
spec states it: `delta_u = viewport_u / width`, `delta_v = viewport_v /
height`, `pixel_start = (eye - focus_dist*w - viewport_u/2 - viewport_v/2) +
(delta_u + delta_v)/2`, and the defocus disk basis is `u * r` and `v * r`
with `r = focus_dist * tan(radians(defocus_angle/2))`. -/
theorem camera_new_matches_spec_geometry (look_from look_at : Point) :
    (Camera.new look_from look_at).delta_u = SpecSide.delta_u look_from look_at ∧
    (Camera.new look_from look_at).delta_v = SpecSide.delta_v look_from look_at ∧
    (Camera.new look_from look_at).pixel_start = SpecSide.pixel_start look_from look_at ∧
    (Camera.new look_from look_at).disk_u = SpecSide.disk_u look_from look_at ∧
    (Camera.new look_from look_at).disk_v = SpecSide.disk_v look_from look_at := by
  refine ⟨rfl, rfl, ?_, rfl, rfl⟩
  rfl

/-! ### Image dimensions and output header (camera.rs lines 82-91) -/

/-- Line 82: the header `format!("P3\n{} {}\n255\n", self.width, self.height)`
declares the two dimensions; embedded as the declared pair after the
integral casts of lines 85-86. -/
def header_dims (w h : ℕ) : ℕ × ℕ := (w, h)

/-- Lines 89-91: `let total = (width * height) as usize;` and
`vec![BLACK; total]`, the shared pixel buffer. -/
def pixel_buffer (w h : ℕ) : List Color := List.replicate (w * h) BLACK

/-- C6: the derived image height equals `floor(width / aspect_ratio)` clamped
to be at least 1 (for every width/aspect pair, in particular every positive
one), and the dimensions declared in the output header equal the actual
dimensions of the pixel buffer, which holds exactly `width * height`
entries. -/
theorem height_derivation_and_dims :
    (∀ width aspect : ℝ,
      derivedHeight width aspect = max ((⌊width / aspect⌋ : ℤ) : ℝ) 1 ∧
      1 ≤ derivedHeight width aspect) ∧
    (∀ w h : ℕ, header_dims w h = (w, h) ∧ (pixel_buffer w h).length = w * h) := by
  constructor
  · intro width aspect
    have h0 : ⌊max (width / aspect) 1⌋ = max ⌊width / aspect⌋ ⌊(1 : ℝ)⌋ :=
      Int.floor_mono.map_max
    have h1 : (⌊max (width / aspect) 1⌋ : ℤ) = max ⌊width / aspect⌋ 1 := by
      rw [h0, Int.floor_one]
    constructor
    · unfold derivedHeight
      rw [h1]
      push_cast
      rfl
    · unfold derivedHeight
      have h2 : (1 : ℤ) ≤ ⌊max (width / aspect) 1⌋ := by
        rw [Int.le_floor]
        exact_mod_cast le_max_right (width / aspect) 1
      exact_mod_cast h2
  · intro w h
    exact ⟨rfl, by simp [pixel_buffer]⟩

/-! ### Per-pixel sampling (camera.rs lines 124-147) -/

/-- Modelled from the spec: `Ray` of `ray.rs`, an origin plus a direction
(spec §3). -/
structure Ray where
  origin : Point
  direction : Vec3

/-- Modelled from the spec: `Ray::new(origin, direction)`. -/
def Ray.new (o : Point) (d : Vec3) : Ray := ⟨o, d⟩

/-- `defocus_sample` (camera.rs lines 194-197); the draw
`Vec3::random_in_unit_disk()` is passed in as the oracle value `p`. -/
def defocus_sample (eye disk_u disk_v p : Vec3) : Point :=
  eye + p.x * disk_u + p.y * disk_v

/-- Lines 129-132: the jittered pixel-plane target
`pixel_start + (y + offset.y) * delta_v + (x + offset.x) * delta_u`
for pixel row `i`, column `j`. -/
noncomputable def sample_pixel (c : Camera) (i j : ℕ) (offset : Vec3) : Vec3 :=
  c.pixel_start + ((i : ℝ) + offset.y) * c.delta_v + ((j : ℝ) + offset.x) * c.delta_u

/-- Lines 134-138: the ray origin, the eye when `defocus_angle <= 0.0` and a
defocus-disk sample otherwise; `p` is the oracle value for
`Vec3::random_in_unit_disk()`. -/
noncomputable def ray_org (c : Camera) (p : Vec3) : Point :=
  if c.defocus_angle ≤ 0 then c.eye else defocus_sample c.eye c.disk_u c.disk_v p

/-- Line 139: `Ray::new(ray_org, sample_pixel - ray_org)`. -/
noncomputable def sample_ray (c : Camera) (i j : ℕ) (offset p : Vec3) : Ray :=
  Ray.new (ray_org c p) (sample_pixel c i j offset - ray_org c p)

/-- Lines 126-143: the per-pixel sampling loop; `rc` abstracts the external
integrator `ray_color(ray, environment, reflect_depth)`, `offs s` the oracle
value of `Vec3::random(-0.5, 0.5)` at sample `s`, and `disks s` the oracle
value of `Vec3::random_in_unit_disk()` at sample `s`.  The accumulated
colour is divided by `sample_num` (line 143). -/
noncomputable def pixel_color (c : Camera) (rc : Ray → Color)
    (offs disks : ℕ → Vec3) (i j : ℕ) : Color :=
  ((List.range c.sample_num).foldl
    (fun color s => color + rc (sample_ray c i j (offs s) (disks s))) BLACK)
    / (c.sample_num : ℝ)

lemma black_add (v : Vec3) : BLACK + v = v := zero_add v

lemma foldl_add_range (f : ℕ → Vec3) (n : ℕ) (init : Vec3) :
    (List.range n).foldl (fun a s => a + f s) init
      = init + ∑ s ∈ Finset.range n, f s := by
  induction n with
  | zero => simp
  | succ m ih =>
    rw [List.range_succ, List.foldl_append, List.foldl_cons, List.foldl_nil,
      ih, Finset.sum_range_succ, add_assoc]

/-- C3: the value computed for pixel `(i, j)` equals the arithmetic mean of
`sample_num` integrator estimates, each evaluated on a ray aimed at
`pixel_start + (i + offset.y)*delta_v + (j + offset.x)*delta_u`: the sample
colours are summed and the accumulated colour is divided componentwise by
`sample_num`. -/
theorem pixel_color_is_sample_mean (c : Camera) (rc : Ray → Color)
    (offs disks : ℕ → Vec3) (i j : ℕ) :
    pixel_color c rc offs disks i j =
      (∑ s ∈ Finset.range c.sample_num,
        rc (Ray.new (ray_org c (disks s))
          (c.pixel_start + ((i : ℝ) + (offs s).y) * c.delta_v
              + ((j : ℝ) + (offs s).x) * c.delta_u
            - ray_org c (disks s)))) / (c.sample_num : ℝ) := by
  unfold pixel_color
  rw [foldl_add_range, black_add]
  rfl

/-- C5: for every sample, the ray origin equals the eye position exactly when
`defocus_angle <= 0` and otherwise equals `eye + p.x*disk_u + p.y*disk_v`
for the unit-disk draw `p`; the ray's direction points from that origin
toward the jittered target point. -/
theorem ray_origin_and_direction (c : Camera) (i j : ℕ) (offset p : Vec3) :
    ray_org c p = (if c.defocus_angle ≤ 0 then c.eye
      else c.eye + p.x * c.disk_u + p.y * c.disk_v) ∧
    (sample_ray c i j offset p).origin = ray_org c p ∧
    (sample_ray c i j offset p).direction
      = sample_pixel c i j offset - ray_org c p :=
  ⟨rfl, rfl, rfl⟩

/-! ### Row-band partition (camera.rs lines 93-117) -/

/-- Line 94: `let chunk_size = height / num_threads;` (integer division). -/
def chunk_size (height : ℕ) : ℕ := height / THREADS_NUM

/-- Line 112: `let start_row = thread_id * chunk_size;` -/
def start_row (t height : ℕ) : ℕ := t * chunk_size height

/-- Lines 113-117: `let end_row = if thread_id == num_threads - 1 { height }
else { (thread_id + 1) * chunk_size };` -/
def end_row (t height : ℕ) : ℕ :=
  if t = THREADS_NUM - 1 then height else (t + 1) * chunk_size height

/-- The set of rows worker `t` renders: `start_row..end_row` (line 121). -/
def band (t height : ℕ) : Finset ℕ := Finset.Ico (start_row t height) (end_row t height)

lemma end_row_le (t h : ℕ) (ht : t < 12) : end_row t h ≤ h := by
  unfold end_row THREADS_NUM chunk_size
  split
  · exact le_rfl
  · calc (t + 1) * (h / 12) ≤ 12 * (h / 12) := Nat.mul_le_mul_right _ (by omega)
    _ ≤ h := by omega

lemma start_row_le_end_row (t h : ℕ) (ht : t < 12) : start_row t h ≤ end_row t h := by
  unfold start_row end_row THREADS_NUM chunk_size
  split
  · calc t * (h / 12) ≤ 12 * (h / 12) := Nat.mul_le_mul_right _ (by omega)
    _ ≤ h := by omega
  · exact Nat.mul_le_mul_right _ (by omega)

lemma end_row_le_start_row (t1 t2 h : ℕ) (hlt : t1 < t2) (ht2 : t2 < 12) :
    end_row t1 h ≤ start_row t2 h := by
  unfold start_row end_row THREADS_NUM chunk_size
  split
  · rename_i heq
    exact absurd ht2 (by omega)
  · exact Nat.mul_le_mul_right _ (by omega)

lemma band_disjoint_of_lt (t1 t2 h : ℕ) (hlt : t1 < t2) (ht2 : t2 < 12) :
    Disjoint (band t1 h) (band t2 h) := by
  have he := end_row_le_start_row t1 t2 h hlt ht2
  rw [Finset.disjoint_left]
  intro a ha1 ha2
  rw [band, Finset.mem_Ico] at ha1 ha2
  omega

lemma band_disjoint (t1 t2 h : ℕ) (ht1 : t1 < 12) (ht2 : t2 < 12) (hne : t1 ≠ t2) :
    Disjoint (band t1 h) (band t2 h) := by
  rcases Nat.lt_or_ge t1 t2 with hlt | hge
  · exact band_disjoint_of_lt t1 t2 h hlt ht2
  · exact (band_disjoint_of_lt t2 t1 h (by omega) ht1).symm

lemma band_card_small (t h : ℕ) (ht : t < 11) : (band t h).card = chunk_size h := by
  rw [band, Nat.card_Ico]
  unfold start_row end_row THREADS_NUM
  rw [if_neg (by omega), Nat.succ_mul]
  exact Nat.add_sub_cancel_left _ _

lemma band_card_last (h : ℕ) : (band 11 h).card = h - 11 * chunk_size h := by
  rw [band, Nat.card_Ico]
  unfold start_row end_row THREADS_NUM
  rw [if_pos rfl]

lemma sum_band_cards (h : ℕ) : ∑ t ∈ Finset.range 12, (band t h).card = h := by
  rw [Finset.sum_range_succ, band_card_last,
    Finset.sum_congr rfl (fun t ht => band_card_small t h (Finset.mem_range.mp ht)),
    Finset.sum_const, Finset.card_range, smul_eq_mul]
  unfold chunk_size THREADS_NUM
  omega

lemma bands_cover (h : ℕ) :
    (Finset.range 12).biUnion (fun t => band t h) = Finset.range h := by
  have hsub : (Finset.range 12).biUnion (fun t => band t h) ⊆ Finset.range h := by
    intro x hx
    rw [Finset.mem_biUnion] at hx
    obtain ⟨t, ht, hxb⟩ := hx
    rw [band, Finset.mem_Ico] at hxb
    rw [Finset.mem_range]
    exact lt_of_lt_of_le hxb.2 (end_row_le t h (Finset.mem_range.mp ht))
  have hcard : ((Finset.range 12).biUnion (fun t => band t h)).card = h := by
    rw [Finset.card_biUnion (fun t1 h1 t2 h2 hne =>
      band_disjoint t1 t2 h (Finset.mem_range.mp h1) (Finset.mem_range.mp h2) hne)]
    exact sum_band_cards h
  exact Finset.eq_of_subset_of_card_le hsub (by rw [hcard, Finset.card_range])

/-- C1: for every image height `h ≥ 1` (and `THREADS_NUM = 12`), the
scheduler partitions the rows into 12 contiguous bands: band `k` for
`k < 11` covers rows `[k*(h/12), (k+1)*(h/12))` holding `h/12` rows each,
the last band covers `[11*(h/12), h)` holding `h - 11*(h/12)` rows, the
bands are pairwise disjoint, and their union is exactly `[0, h)`. -/
theorem row_band_partition (h : ℕ) (hh : 1 ≤ h) :
    (∀ t1 t2, t1 < 12 → t2 < 12 → t1 ≠ t2 → Disjoint (band t1 h) (band t2 h)) ∧
    (Finset.range 12).biUnion (fun t => band t h) = Finset.range h ∧
    (∀ k, k < 11 → band k h = Finset.Ico (k * (h / 12)) ((k + 1) * (h / 12)) ∧
      (band k h).card = h / 12) ∧
    band 11 h = Finset.Ico (11 * (h / 12)) h ∧
    (band 11 h).card = h - 11 * (h / 12) := by
  refine ⟨fun t1 t2 h1 h2 hne => band_disjoint t1 t2 h h1 h2 hne,
    bands_cover h, fun k hk => ⟨?_, band_card_small k h hk⟩, ?_, band_card_last h⟩
  · rw [band]
    unfold start_row end_row chunk_size THREADS_NUM
    rw [if_neg (by omega : ¬ k = 12 - 1)]
  · rw [band]
    unfold start_row end_row chunk_size THREADS_NUM
    rw [if_pos (by decide : 11 = 12 - 1)]

/-- Witness for `row_band_partition` at the spec's own test height 100. -/
theorem row_band_partition_witness :
    1 ≤ 100 ∧
    ((Finset.range 12).biUnion (fun t => band t 100) = Finset.range 100 ∧
      (band 11 100).card = 100 - 11 * (100 / 12)) :=
  ⟨by decide, (row_band_partition 100 (by decide)).2.1,
    (row_band_partition 100 (by decide)).2.2.2.2⟩

/-! ### Progress counter (camera.rs lines 88, 146, 173-176) -/

/-- The iteration pairs `(i, j)` of the nested loops
`for i in start..end { for j in 0..width { ... } }`. -/
def rowPairs (a b w : ℕ) : List (ℕ × ℕ) :=
  (List.range' a (b - a)).flatMap (fun i => (List.range w).map (fun j => (i, j)))

/-- One counter-increment event `(t, i, j)` per pixel `(i, j)` completed by
worker `t` (`counter.fetch_add(1, Ordering::SeqCst)` at line 146). -/
def all_events (h w : ℕ) : List (ℕ × ℕ × ℕ) :=
  (List.range 12).flatMap (fun t =>
    (rowPairs (start_row t h) (end_row t h) w).map (fun p => (t, p.1, p.2)))

lemma foldl_succ_len {α : Type} (l : List α) (n : ℕ) :
    l.foldl (fun c _ => c + 1) n = n + l.length := by
  induction l generalizing n with
  | nil => simp
  | cons a l ih => rw [List.foldl_cons, ih, List.length_cons]; omega

lemma length_flatMap' {α β : Type} (l : List α) (f : α → List β) :
    (l.flatMap f).length = (l.map fun a => (f a).length).sum := by
  induction l with
  | nil => rfl
  | cons a l ih => simp [ih]

lemma sum_map_const {α : Type} (l : List α) (w : ℕ) :
    (l.map fun _ => w).sum = l.length * w := by
  induction l with
  | nil => simp
  | cons a l ih => simp [ih, Nat.succ_mul]; omega

lemma length_rowPairs (a b w : ℕ) : (rowPairs a b w).length = (b - a) * w := by
  rw [rowPairs, length_flatMap']
  have : ((List.range' a (b - a)).map fun i => ((List.range w).map fun j => (i, j)).length)
      = (List.range' a (b - a)).map fun _ => w := by
    simp
  rw [this, sum_map_const, List.length_range']

lemma list_range_sum (f : ℕ → ℕ) (n : ℕ) :
    ((List.range n).map f).sum = ∑ t ∈ Finset.range n, f t := by
  induction n with
  | zero => simp
  | succ m ih => rw [List.range_succ, List.map_append, List.sum_append,
      Finset.sum_range_succ, ih]; simp

lemma length_all_events (h w : ℕ) : (all_events h w).length = w * h := by
  rw [all_events, length_flatMap']
  have : ((List.range 12).map fun t =>
      ((rowPairs (start_row t h) (end_row t h) w).map fun p => (t, p.1, p.2)).length)
      = (List.range 12).map fun t => (end_row t h - start_row t h) * w := by
    simp [length_rowPairs]
  rw [this, list_range_sum, ← Finset.sum_mul]
  have hsum : ∑ t ∈ Finset.range 12, (end_row t h - start_row t h) = h := by
    calc ∑ t ∈ Finset.range 12, (end_row t h - start_row t h)
        = ∑ t ∈ Finset.range 12, (band t h).card :=
          Finset.sum_congr rfl (fun t _ => (Nat.card_Ico _ _).symm)
    _ = h := sum_band_cards h
  rw [hsum, Nat.mul_comm]

/-- C8: one atomic `+1` increment happens per completed pixel of every
worker; folded over the events of all workers in any interleaving, the final
counter value is exactly `width * height`. -/
theorem progress_counter_total (h w : ℕ) (ev : List (ℕ × ℕ × ℕ))
    (hperm : ev.Perm (all_events h w)) :
    ev.foldl (fun c _ => c + 1) 0 = w * h := by
  rw [foldl_succ_len, hperm.length_eq, length_all_events]
  omega

/-- Witness for `progress_counter_total`: the identity interleaving on a
5-row, 3-column image. -/
theorem progress_counter_total_witness :
    (all_events 5 3).foldl (fun c _ => c + 1) 0 = 3 * 5 :=
  progress_counter_total 5 3 (all_events 5 3) (List.Perm.refl _)

/-! ### Pixel-buffer writes and the copy-in merge (camera.rs lines 119-155)

A sequence of indexed assignments (`buf[idx] = val`, the Rust `Vec` writes)
is embedded as a fold of `List.set` over the loop's iteration pairs.  The
mutual-exclusion lock serializes the per-band copy-ins, so a completed
render is the fold of the twelve copy-ins over the shared buffer in
whatever order the threads acquired the lock: an arbitrary permutation
`order` of `0..12`. -/

/-- A loop of indexed assignments `buf[idx p] = val p` over iteration pairs
`ps`. -/
def applyWrites (idx : ℕ × ℕ → ℕ) (val : ℕ × ℕ → Color)
    (buf : List Color) (ps : List (ℕ × ℕ)) : List Color :=
  ps.foldl (fun bf p => bf.set (idx p) (val p)) buf

/-- Lines 119-144: worker `t`'s private buffer
`vec![BLACK; (end_row - start_row) * width]`, filled at index
`(i - start_row) * width + j` with the averaged colour `f i j` of pixel
`(i, j)`. -/
def local_pixels (f : ℕ → ℕ → Color) (h w t : ℕ) : List Color :=
  applyWrites (fun p => (p.1 - start_row t h) * w + p.2) (fun p => f p.1 p.2)
    (List.replicate ((end_row t h - start_row t h) * w) BLACK)
    (rowPairs (start_row t h) (end_row t h) w)

/-- Lines 150-155: worker `t`'s copy-in under the lock:
`pixels[i * width + j] = local_pixels[(i - start_row) * width + j]` for every
row of its band. -/
def copy_in (f : ℕ → ℕ → Color) (h w : ℕ) (buf : List Color) (t : ℕ) : List Color :=
  applyWrites (fun p => p.1 * w + p.2)
    (fun p => (local_pixels f h w t).getD ((p.1 - start_row t h) * w + p.2) BLACK)
    buf (rowPairs (start_row t h) (end_row t h) w)

/-- The shared buffer after all twelve workers merged, the copy-ins applied
in lock-acquisition order `order` on the black-filled buffer of line 91. -/
def render_pixels (f : ℕ → ℕ → Color) (h w : ℕ) (order : List ℕ) : List Color :=
  order.foldl (copy_in f h w) (pixel_buffer w h)

/-- The number of writes worker `t` issues to shared index `k`. -/
def band_writes (t h w k : ℕ) : ℕ :=
  ((band t h ×ˢ Finset.range w).filter (fun p => p.1 * w + p.2 = k)).card

/-- The total number of writes to shared index `k` across all workers. -/
def writes_to (h w k : ℕ) : ℕ := ∑ t ∈ Finset.range 12, band_writes t h w k

lemma applyWrites_nil (idx : ℕ × ℕ → ℕ) (val : ℕ × ℕ → Color) (buf : List Color) :
    applyWrites idx val buf [] = buf := rfl

lemma applyWrites_cons (idx : ℕ × ℕ → ℕ) (val : ℕ × ℕ → Color) (buf : List Color)
    (p : ℕ × ℕ) (ps : List (ℕ × ℕ)) :
    applyWrites idx val buf (p :: ps)
      = applyWrites idx val (buf.set (idx p) (val p)) ps := rfl

lemma applyWrites_append (idx : ℕ × ℕ → ℕ) (val : ℕ × ℕ → Color) (buf : List Color)
    (l1 l2 : List (ℕ × ℕ)) :
    applyWrites idx val buf (l1 ++ l2)
      = applyWrites idx val (applyWrites idx val buf l1) l2 := by
  simp [applyWrites, List.foldl_append]

lemma applyWrites_length (idx : ℕ × ℕ → ℕ) (val : ℕ × ℕ → Color)
    (ps : List (ℕ × ℕ)) (buf : List Color) :
    (applyWrites idx val buf ps).length = buf.length := by
  induction ps generalizing buf with
  | nil => rfl
  | cons p ps ih => rw [applyWrites_cons, ih, List.length_set]

lemma applyWrites_getElem?_skip (idx : ℕ × ℕ → ℕ) (val : ℕ × ℕ → Color)
    (ps : List (ℕ × ℕ)) (buf : List Color) (k : ℕ)
    (hk : ∀ p ∈ ps, idx p ≠ k) :
    (applyWrites idx val buf ps)[k]? = buf[k]? := by
  induction ps generalizing buf with
  | nil => rfl
  | cons p ps ih =>
    rw [applyWrites_cons, ih _ (fun q hq => hk q (List.mem_cons.mpr (Or.inr hq))),
      List.getElem?_set_ne (hk p (List.mem_cons.mpr (Or.inl rfl)))]

lemma exists_split_last {α : Type} [DecidableEq α] (l : List α) (a : α) (ha : a ∈ l) :
    ∃ l1 l2, l = l1 ++ a :: l2 ∧ a ∉ l2 := by
  induction l with
  | nil => cases ha
  | cons b l ih =>
    by_cases hmem : a ∈ l
    · obtain ⟨l1, l2, rfl, hnot⟩ := ih hmem
      exact ⟨b :: l1, l2, rfl, hnot⟩
    · have hab : a = b := by
        rcases List.mem_cons.mp ha with hh | hh
        · exact hh
        · exact absurd hh hmem
      exact ⟨[], l, by rw [hab]; rfl, hmem⟩

lemma applyWrites_getElem?_hit (idx : ℕ × ℕ → ℕ) (val : ℕ × ℕ → Color)
    (ps : List (ℕ × ℕ)) (buf : List Color) (p : ℕ × ℕ)
    (hmem : p ∈ ps) (hinj : ∀ q ∈ ps, idx q = idx p → q = p)
    (hlen : idx p < buf.length) :
    (applyWrites idx val buf ps)[idx p]? = some (val p) := by
  obtain ⟨l1, l2, rfl, hnot⟩ := exists_split_last ps p hmem
  rw [applyWrites_append, applyWrites_cons]
  rw [applyWrites_getElem?_skip _ _ _ _ _ (fun q hq hiq => by
    have hq' : q ∈ l1 ++ p :: l2 := by
      rw [List.mem_append, List.mem_cons]
      exact Or.inr (Or.inr hq)
    exact hnot ((hinj q hq' hiq) ▸ hq))]
  have hlen' : idx p < (applyWrites idx val buf l1).length := by
    rw [applyWrites_length]; exact hlen
  exact List.getElem?_set_self hlen'

lemma mem_rowPairs {a b w : ℕ} {p : ℕ × ℕ} :
    p ∈ rowPairs a b w ↔ a ≤ p.1 ∧ p.1 < b ∧ p.2 < w := by
  obtain ⟨i, j⟩ := p
  constructor
  · intro hp
    rw [rowPairs, List.mem_flatMap] at hp
    obtain ⟨i', hi', hmem⟩ := hp
    rw [List.mem_map] at hmem
    obtain ⟨j', hj', heq⟩ := hmem
    rw [List.mem_range'] at hi'
    rw [List.mem_range] at hj'
    obtain ⟨k, hk, rfl⟩ := hi'
    cases heq
    exact ⟨by omega, by omega, hj'⟩
  · rintro ⟨h1, h2, h3⟩
    rw [rowPairs, List.mem_flatMap]
    refine ⟨i, ?_, ?_⟩
    · rw [List.mem_range']
      exact ⟨i - a, by omega, by omega⟩
    · rw [List.mem_map]
      exact ⟨j, List.mem_range.mpr h3, rfl⟩

lemma rowMajor_inj (w m n j k : ℕ) (hj : j < w) (hk : k < w)
    (heq : m * w + j = n * w + k) : m = n ∧ j = k := by
  have hw : 0 < w := by omega
  have e1 : (m * w + j) % w = j := by
    rw [Nat.add_comm, Nat.add_mul_mod_self_right, Nat.mod_eq_of_lt hj]
  have e2 : (n * w + k) % w = k := by
    rw [Nat.add_comm, Nat.add_mul_mod_self_right, Nat.mod_eq_of_lt hk]
  have hjk : j = k := by rw [← e1, ← e2, heq]
  subst hjk
  have h2 : m * w = n * w := by
    exact Nat.add_right_cancel heq
  exact ⟨Nat.eq_of_mul_eq_mul_right hw h2, rfl⟩

lemma rowMajor_lt (m bnd j w : ℕ) (hm : m < bnd) (hj : j < w) :
    m * w + j < bnd * w := by
  calc m * w + j < m * w + w := by omega
  _ = (m + 1) * w := (Nat.succ_mul m w).symm
  _ ≤ bnd * w := Nat.mul_le_mul_right _ hm

lemma local_pixels_getD (f : ℕ → ℕ → Color) (h w t i j : ℕ)
    (hi1 : start_row t h ≤ i) (hi2 : i < end_row t h) (hj : j < w) :
    (local_pixels f h w t).getD ((i - start_row t h) * w + j) BLACK = f i j := by
  have hlt : (i - start_row t h) * w + j
      < (end_row t h - start_row t h) * w :=
    rowMajor_lt _ _ _ _ (by omega) hj
  have hget : (local_pixels f h w t)[(i - start_row t h) * w + j]?
      = some (f i j) := by
    have := applyWrites_getElem?_hit
      (fun p => (p.1 - start_row t h) * w + p.2) (fun p => f p.1 p.2)
      (rowPairs (start_row t h) (end_row t h) w)
      (List.replicate ((end_row t h - start_row t h) * w) BLACK)
      (i, j) (mem_rowPairs.mpr ⟨hi1, hi2, hj⟩) ?_ ?_
    · exact this
    · intro q hq hiq
      obtain ⟨hq1, hq2, hq3⟩ := mem_rowPairs.mp hq
      obtain ⟨he1, he2⟩ := rowMajor_inj w _ _ _ _ hq3 hj hiq
      obtain ⟨qi, qj⟩ := q
      simp only at he1 he2 hq1
      have : qi = i := by omega
      rw [this, he2]
    · rw [List.length_replicate]
      exact hlt
  rw [List.getD_eq_getElem?_getD, hget]
  rfl

lemma copy_in_length (f : ℕ → ℕ → Color) (h w : ℕ) (buf : List Color) (t : ℕ) :
    (copy_in f h w buf t).length = buf.length :=
  applyWrites_length _ _ _ _

lemma copy_in_getElem?_hit (f : ℕ → ℕ → Color) (h w : ℕ) (buf : List Color)
    (t i j : ℕ) (hi1 : start_row t h ≤ i) (hi2 : i < end_row t h) (hj : j < w)
    (hlen : i * w + j < buf.length) :
    (copy_in f h w buf t)[i * w + j]? = some (f i j) := by
  have := applyWrites_getElem?_hit (fun p => p.1 * w + p.2)
    (fun p => (local_pixels f h w t).getD ((p.1 - start_row t h) * w + p.2) BLACK)
    (rowPairs (start_row t h) (end_row t h) w) buf (i, j)
    (mem_rowPairs.mpr ⟨hi1, hi2, hj⟩) ?_ hlen
  · rw [copy_in]
    exact this.trans (congrArg some (local_pixels_getD f h w t i j hi1 hi2 hj))
  · intro q hq hiq
    obtain ⟨hq1, hq2, hq3⟩ := mem_rowPairs.mp hq
    obtain ⟨he1, he2⟩ := rowMajor_inj w _ _ _ _ hq3 hj hiq
    obtain ⟨qi, qj⟩ := q
    simp only at he1 he2
    rw [he1, he2]

lemma copy_in_getElem?_skip (f : ℕ → ℕ → Color) (h w : ℕ) (buf : List Color)
    (t i j : ℕ) (hj : j < w)
    (hnot : ¬(start_row t h ≤ i ∧ i < end_row t h)) :
    (copy_in f h w buf t)[i * w + j]? = buf[i * w + j]? := by
  apply applyWrites_getElem?_skip
  intro q hq hiq
  obtain ⟨hq1, hq2, hq3⟩ := mem_rowPairs.mp hq
  obtain ⟨he1, he2⟩ := rowMajor_inj w _ _ _ _ hq3 hj hiq
  exact hnot (he1 ▸ ⟨hq1, hq2⟩)

lemma fold_copy_length (f : ℕ → ℕ → Color) (h w : ℕ) (order : List ℕ)
    (buf : List Color) :
    (order.foldl (copy_in f h w) buf).length = buf.length := by
  induction order generalizing buf with
  | nil => rfl
  | cons o rest ih => rw [List.foldl_cons, ih, copy_in_length]

lemma fold_copy_skip (f : ℕ → ℕ → Color) (h w : ℕ) (order : List ℕ)
    (buf : List Color) (i j : ℕ) (hj : j < w)
    (hnone : ∀ t ∈ order, ¬(start_row t h ≤ i ∧ i < end_row t h)) :
    (order.foldl (copy_in f h w) buf)[i * w + j]? = buf[i * w + j]? := by
  induction order generalizing buf with
  | nil => rfl
  | cons o rest ih =>
    rw [List.foldl_cons, ih _ (fun t htt => hnone t (List.mem_cons.mpr (Or.inr htt))),
      copy_in_getElem?_skip f h w buf o i j hj (hnone o (List.mem_cons.mpr (Or.inl rfl)))]

lemma fold_copy_hit (f : ℕ → ℕ → Color) (h w : ℕ) (tstar i j : ℕ)
    (hi1 : start_row tstar h ≤ i) (hi2 : i < end_row tstar h) (hj : j < w)
    (order : List ℕ) (buf : List Color) (hmem : tstar ∈ order)
    (hdisj : ∀ t ∈ order, t = tstar ∨ ¬(start_row t h ≤ i ∧ i < end_row t h))
    (hlen : i * w + j < buf.length) :
    (order.foldl (copy_in f h w) buf)[i * w + j]? = some (f i j) := by
  induction order generalizing buf with
  | nil => cases hmem
  | cons o rest ih =>
    rw [List.foldl_cons]
    by_cases hro : tstar ∈ rest
    · exact ih (copy_in f h w buf o) hro
        (fun t htt => hdisj t (List.mem_cons.mpr (Or.inr htt)))
        (by rw [copy_in_length]; exact hlen)
    · have ho : o = tstar := by
        rcases List.mem_cons.mp hmem with hh | hh
        · exact hh.symm
        · exact absurd hh hro
      subst ho
      rw [fold_copy_skip f h w rest _ i j hj ?_]
      · exact copy_in_getElem?_hit f h w buf o i j hi1 hi2 hj hlen
      · intro t htt
        rcases hdisj t (List.mem_cons.mpr (Or.inr htt)) with heq | hno
        · exact absurd (heq ▸ htt) hro
        · exact hno

lemma row_band_exists_unique (h i : ℕ) (hi : i < h) :
    ∃ t, t < 12 ∧ (start_row t h ≤ i ∧ i < end_row t h) ∧
      ∀ t', t' < 12 → start_row t' h ≤ i → i < end_row t' h → t' = t := by
  have hcov := bands_cover h
  have hmem : i ∈ (Finset.range 12).biUnion (fun t => band t h) := by
    rw [hcov]; exact Finset.mem_range.mpr hi
  rw [Finset.mem_biUnion] at hmem
  obtain ⟨t, ht, htb⟩ := hmem
  rw [band, Finset.mem_Ico] at htb
  refine ⟨t, Finset.mem_range.mp ht, htb, ?_⟩
  intro t' h1 h2 h3
  by_contra hne
  have hd := band_disjoint t' t h h1 (Finset.mem_range.mp ht) hne
  exact Finset.disjoint_left.mp hd (Finset.mem_Ico.mpr ⟨h2, h3⟩)
    (Finset.mem_Ico.mpr htb)

lemma render_pixels_getElem? (f : ℕ → ℕ → Color) (h w : ℕ) (order : List ℕ)
    (i j : ℕ) (hperm : order.Perm (List.range 12)) (hi : i < h) (hj : j < w) :
    (render_pixels f h w order)[i * w + j]? = some (f i j) := by
  obtain ⟨tstar, ht, hband, huniq⟩ := row_band_exists_unique h i hi
  apply fold_copy_hit f h w tstar i j hband.1 hband.2 hj
  · exact hperm.mem_iff.mpr (List.mem_range.mpr ht)
  · intro t htt
    have ht12 : t < 12 := List.mem_range.mp (hperm.mem_iff.mp htt)
    by_cases hb : start_row t h ≤ i ∧ i < end_row t h
    · exact Or.inl (huniq t ht12 hb.1 hb.2)
    · exact Or.inr hb
  · rw [pixel_buffer, List.length_replicate, Nat.mul_comm w h]
    exact rowMajor_lt i h j w hi hj

lemma render_pixels_length (f : ℕ → ℕ → Color) (h w : ℕ) (order : List ℕ) :
    (render_pixels f h w order).length = w * h := by
  rw [render_pixels, fold_copy_length, pixel_buffer, List.length_replicate]

lemma writes_to_eq_one (h w i j : ℕ) (hi : i < h) (hj : j < w) :
    writes_to h w (i * w + j) = 1 := by
  obtain ⟨tstar, ht, hband, huniq⟩ := row_band_exists_unique h i hi
  have hcongr : ∀ t ∈ Finset.range 12,
      band_writes t h w (i * w + j) = if t = tstar then 1 else 0 := by
    intro t htm
    have ht12 : t < 12 := Finset.mem_range.mp htm
    by_cases heq : t = tstar
    · subst heq
      rw [if_pos rfl, band_writes]
      have hsingle : (band t h ×ˢ Finset.range w).filter
          (fun p => p.1 * w + p.2 = i * w + j) = {(i, j)} := by
        ext p
        obtain ⟨pi, pj⟩ := p
        simp only [Finset.mem_filter, Finset.mem_product, Finset.mem_singleton,
          Finset.mem_range, band, Finset.mem_Ico, Prod.mk.injEq]
        constructor
        · rintro ⟨⟨hb, hr⟩, hidx⟩
          exact rowMajor_inj w pi i pj j hr hj hidx
        · rintro ⟨rfl, rfl⟩
          exact ⟨⟨hband, hj⟩, rfl⟩
      rw [hsingle, Finset.card_singleton]
    · rw [if_neg heq, band_writes, Finset.card_eq_zero,
        Finset.filter_eq_empty_iff]
      rintro ⟨pi, pj⟩ hp
      rw [Finset.mem_product, band, Finset.mem_Ico, Finset.mem_range] at hp
      intro hidx
      obtain ⟨he1, he2⟩ := rowMajor_inj w pi i pj j hp.2 hj hidx
      exact heq (huniq t ht12 (he1 ▸ hp.1.1) (he1 ▸ hp.1.2))
  rw [writes_to, Finset.sum_congr rfl hcongr, Finset.sum_ite_eq' (Finset.range 12)]
  exact if_pos (Finset.mem_range.mpr ht)

/-- C7: the shared pixel buffer starts all black, every valid row-major
index `i*w + j` is written exactly once across all workers, and after all
copy-ins (in any lock-acquisition order) the entry at `i*w + j` holds
exactly the averaged sample colour computed for pixel `(i, j)`. -/
theorem pixel_buffer_once_and_final (c : Camera) (rc : Ray → Color)
    (offs disks : ℕ → ℕ → ℕ → Vec3) (h w : ℕ) (order : List ℕ) (i j : ℕ)
    (hh : 1 ≤ h) (hperm : order.Perm (List.range 12)) (hi : i < h) (hj : j < w) :
    (∀ k, k < w * h → (pixel_buffer w h)[k]? = some BLACK) ∧
    writes_to h w (i * w + j) = 1 ∧
    (render_pixels
        (fun a b => pixel_color c rc (offs a b) (disks a b) a b) h w order)[i * w + j]?
      = some (pixel_color c rc (offs i j) (disks i j) i j) := by
  refine ⟨fun k hk => ?_, writes_to_eq_one h w i j hi hj,
    render_pixels_getElem? _ h w order i j hperm hi hj⟩
  rw [pixel_buffer, List.getElem?_replicate, if_pos hk]

/-- Concrete camera used by the closed witnesses. -/
noncomputable def camWit : Camera := Camera.new ⟨0, 0, 0⟩ ⟨0, 0, -1⟩

/-- Trivial integrator oracle used by the closed witnesses. -/
def rcWit : Ray → Color := fun _ => BLACK

/-- Trivial randomness oracle used by the closed witnesses. -/
def randWit : ℕ → ℕ → ℕ → Vec3 := fun _ _ _ => BLACK

/-- Witness for `pixel_buffer_once_and_final`: a 13-row, 2-column image,
identity lock order, final entry of the uneven last band. -/
theorem pixel_buffer_once_and_final_witness :
    (render_pixels
        (fun a b => pixel_color camWit rcWit (randWit a b) (randWit a b) a b)
        13 2 (List.range 12))[12 * 2 + 1]?
      = some (pixel_color camWit rcWit (randWit 12 1) (randWit 12 1) 12 1) :=
  (pixel_buffer_once_and_final camWit rcWit randWit randWit 13 2 (List.range 12)
    12 1 (by decide) (List.Perm.refl _) (by decide) (by decide)).2.2

/-- C9: with the randomness fixed by a reproducible oracle, each pixel's
result depends only on the camera, scene and oracle, so the rendered buffer
is independent of the interleaving: any two lock-acquisition orders of the
twelve workers produce identical pixel buffers. -/
theorem render_interleaving_independent (c : Camera) (rc : Ray → Color)
    (offs disks : ℕ → ℕ → ℕ → Vec3) (h w : ℕ) (o1 o2 : List ℕ)
    (hh : 1 ≤ h) (hp1 : o1.Perm (List.range 12)) (hp2 : o2.Perm (List.range 12)) :
    render_pixels (fun a b => pixel_color c rc (offs a b) (disks a b) a b) h w o1
      = render_pixels (fun a b => pixel_color c rc (offs a b) (disks a b) a b) h w o2 := by
  apply List.ext_getElem?
  intro k
  by_cases hk : k < w * h
  · have hw : 0 < w := by
      rcases Nat.eq_zero_or_pos w with h0 | h0
      · rw [h0] at hk; omega
      · exact h0
    have hj : k % w < w := Nat.mod_lt _ hw
    have hi : k / w < h := by
      rw [Nat.div_lt_iff_lt_mul hw, Nat.mul_comm h w]
      exact hk
    have hdec : (k / w) * w + k % w = k := by
      rw [Nat.mul_comm]
      exact Nat.div_add_mod k w
    rw [← hdec,
      render_pixels_getElem? _ h w o1 (k / w) (k % w) hp1 hi hj,
      render_pixels_getElem? _ h w o2 (k / w) (k % w) hp2 hi hj]
  · rw [List.getElem?_eq_none (by rw [render_pixels_length]; omega),
      List.getElem?_eq_none (by rw [render_pixels_length]; omega)]

/-- Witness for `render_interleaving_independent`: identity order versus
reversed order on a 3-row, 2-column image. -/
theorem render_interleaving_independent_witness :
    render_pixels
        (fun a b => pixel_color camWit rcWit (randWit a b) (randWit a b) a b)
        3 2 (List.range 12)
      = render_pixels
        (fun a b => pixel_color camWit rcWit (randWit a b) (randWit a b) a b)
        3 2 (List.range 12).reverse :=
  render_interleaving_independent camWit rcWit randWit randWit 3 2
    (List.range 12) (List.range 12).reverse (by decide) (List.Perm.refl _)
    (List.reverse_perm (List.range 12))

/-! ### External conversion to PNG (camera.rs lines 185-189 and 199-215)

`convert_ppm_to_png` runs `pnmtopng` through
`std::process::Command::output()`.  That call returns `Err` when the
utility cannot be executed at all (absent binary), and `Ok(output)` with
an exit status otherwise; the source applies
`.expect("Failed to execute command")` to it, which panics on `Err`.
On the success path the further file writes also `.expect`-panic on I/O
failure; they are orthogonal to the claim and modelled as succeeding. -/

/-- Result of `Command::new("pnmtopng").arg("out.ppm").output()`:
either the spawn itself failed (utility absent) or the command ran and
exited with the given success flag and stderr text. -/
inductive CmdResult where
  | spawnFailed : CmdResult
  | ran : Bool → String → CmdResult

/-- Observable outcome of `convert_ppm_to_png`. -/
inductive ConvOutcome where
  | panicked : String → ConvOutcome
  | convertedOk : ConvOutcome
  | reportedFailure : String → ConvOutcome
  deriving DecidableEq

/-- `convert_ppm_to_png` (camera.rs lines 199-215): `.expect` panics when
spawning failed; a run with non-success status prints the stderr diagnostic
and returns; a successful run writes `out.png`. -/
def convert_ppm_to_png : CmdResult → ConvOutcome
  | CmdResult.spawnFailed => ConvOutcome.panicked "Failed to execute command"
  | CmdResult.ran true _ => ConvOutcome.convertedOk
  | CmdResult.ran false stderr => ConvOutcome.reportedFailure stderr

/-- Whether control returns from the conversion call (a panic aborts the
process instead). -/
def continues : ConvOutcome → Bool
  | ConvOutcome.panicked _ => false
  | ConvOutcome.convertedOk => true
  | ConvOutcome.reportedFailure _ => true

/-- End of `Camera::render` (lines 178-189): the ppm pixels are written and
the writer dropped (flushed) before the conversion is attempted, so
`ppm_written` is unconditionally true; `"Completed!"` (line 189) is printed
only if the conversion call returns. -/
structure RenderTail where
  ppm_written : Bool
  conv : ConvOutcome
  completed_msg : Bool

/-- The observable tail of `Camera::render` on the Linux path as a function
of the conversion command's result. -/
def render_tail (cmd : CmdResult) : RenderTail :=
  let conv := convert_ppm_to_png cmd
  ⟨true, conv, continues conv⟩

/-- C2 counterexample: when the conversion utility is absent (its spawn
fails), `convert_ppm_to_png` panics via `.expect` instead of reporting and
continuing — execution does not continue and `"Completed!"` is never
printed, refuting "conversion failure is never fatal to the process". -/
theorem convert_absent_is_fatal :
    convert_ppm_to_png CmdResult.spawnFailed
        = ConvOutcome.panicked "Failed to execute command" ∧
    continues (convert_ppm_to_png CmdResult.spawnFailed) = false ∧
    (render_tail CmdResult.spawnFailed).completed_msg = false :=
  ⟨rfl, rfl, rfl⟩

/-- C2 (amended): when the conversion command runs but exits unsuccessfully,
the failure is reported with its diagnostic and execution continues to the
completion message — only that kind of conversion failure is non-fatal;
and the plain-text ppm output is already on disk whatever the conversion
command's fate. -/
theorem convert_exit_failure_nonfatal (stderr : String) :
    convert_ppm_to_png (CmdResult.ran false stderr)
        = ConvOutcome.reportedFailure stderr ∧
    continues (convert_ppm_to_png (CmdResult.ran false stderr)) = true ∧
    (render_tail (CmdResult.ran false stderr)).completed_msg = true ∧
    ∀ cmd : CmdResult, (render_tail cmd).ppm_written = true :=
  ⟨rfl, rfl, rfl, fun _ => rfl⟩

/-! ### IEEE-style scalars with NaN, for the degenerate-camera analysis

`F` refines the real-valued idealization just far enough to track NaN.
IEEE-754 division gives ±∞ for `a/0` with `a ≠ 0`; in `Camera::new` the
only divisions with a possibly-zero denominator are the normalization
components `x / length v`, and `length v = 0` forces `x = 0` (a Euclidean
norm vanishes only on the zero vector), so `0/0 = NaN` is the only
division-by-zero ever reached and collapsing division-by-zero to NaN is
faithful on all paths of the constructor. -/

/-- A floating-point style scalar: NaN or a finite real. -/
inductive F where
  | nan : F
  | fin : ℝ → F

namespace F

def add : F → F → F
  | fin a, fin b => fin (a + b)
  | _, _ => nan

def sub : F → F → F
  | fin a, fin b => fin (a - b)
  | _, _ => nan

def mul : F → F → F
  | fin a, fin b => fin (a * b)
  | _, _ => nan

/-- Division; see the section comment for the 0/0-only justification. -/
noncomputable def div : F → F → F
  | fin a, fin b => if b = 0 then nan else fin (a / b)
  | _, _ => nan

def neg : F → F
  | fin a => fin (-a)
  | nan => nan

/-- IEEE square root: NaN on NaN and on negative inputs. -/
noncomputable def sqrt : F → F
  | fin a => if a < 0 then nan else fin (Real.sqrt a)
  | nan => nan

/-- Tangent of a finite value is finite (IEEE `tan` never returns ±∞). -/
noncomputable def tan : F → F
  | fin a => fin (Real.tan a)
  | nan => nan

/-- Rust `f64::max`: returns the other operand when one is NaN. -/
def fmax : F → F → F
  | nan, b => b
  | a, nan => a
  | fin a, fin b => fin (max a b)

/-- `f64::floor`. -/
noncomputable def floor : F → F
  | fin a => fin ((⌊a⌋ : ℤ) : ℝ)
  | nan => nan

end F

noncomputable instance : Add F := ⟨F.add⟩

noncomputable instance : Sub F := ⟨F.sub⟩

noncomputable instance : Mul F := ⟨F.mul⟩

noncomputable instance : Div F := ⟨F.div⟩

noncomputable instance : Neg F := ⟨F.neg⟩

@[simp] lemma F.fin_add_fin (a b : ℝ) : F.fin a + F.fin b = F.fin (a + b) := rfl

@[simp] lemma F.nan_add (x : F) : F.nan + x = F.nan := rfl

@[simp] lemma F.add_nan (x : F) : x + F.nan = F.nan := by cases x <;> rfl

@[simp] lemma F.fin_sub_fin (a b : ℝ) : F.fin a - F.fin b = F.fin (a - b) := rfl

@[simp] lemma F.nan_sub (x : F) : F.nan - x = F.nan := rfl

@[simp] lemma F.sub_nan (x : F) : x - F.nan = F.nan := by cases x <;> rfl

@[simp] lemma F.fin_mul_fin (a b : ℝ) : F.fin a * F.fin b = F.fin (a * b) := rfl

@[simp] lemma F.nan_mul (x : F) : F.nan * x = F.nan := rfl

@[simp] lemma F.mul_nan (x : F) : x * F.nan = F.nan := by cases x <;> rfl

@[simp] lemma F.fin_div_fin (a b : ℝ) :
    F.fin a / F.fin b = if b = 0 then F.nan else F.fin (a / b) := rfl

@[simp] lemma F.nan_div (x : F) : F.nan / x = F.nan := by cases x <;> rfl

@[simp] lemma F.div_nan (x : F) : x / F.nan = F.nan := by cases x <;> rfl

@[simp] lemma F.neg_fin (a : ℝ) : -(F.fin a) = F.fin (-a) := rfl

@[simp] lemma F.neg_nan : -F.nan = F.nan := rfl

@[simp] lemma F.sqrt_fin (a : ℝ) :
    F.sqrt (F.fin a) = if a < 0 then F.nan else F.fin (Real.sqrt a) := rfl

@[simp] lemma F.sqrt_nan : F.sqrt F.nan = F.nan := rfl

@[simp] lemma F.tan_fin (a : ℝ) : F.tan (F.fin a) = F.fin (Real.tan a) := rfl

@[simp] lemma F.tan_nan : F.tan F.nan = F.nan := rfl

/-- Modelled from the spec: the 3-component tuple over NaN-aware scalars. -/
@[ext] structure Vec3F where
  x : F
  y : F
  z : F

noncomputable instance : Add Vec3F :=
  ⟨fun a b => ⟨a.x + b.x, a.y + b.y, a.z + b.z⟩⟩

noncomputable instance : Sub Vec3F :=
  ⟨fun a b => ⟨a.x - b.x, a.y - b.y, a.z - b.z⟩⟩

noncomputable instance : HMul F Vec3F Vec3F :=
  ⟨fun s v => ⟨s * v.x, s * v.y, s * v.z⟩⟩

noncomputable instance : HMul Vec3F F Vec3F :=
  ⟨fun v s => ⟨v.x * s, v.y * s, v.z * s⟩⟩

noncomputable instance : HDiv Vec3F F Vec3F :=
  ⟨fun v s => ⟨v.x / s, v.y / s, v.z / s⟩⟩

@[simp] lemma Vec3F.add_comp (a b : Vec3F) :
    a + b = ⟨a.x + b.x, a.y + b.y, a.z + b.z⟩ := rfl

@[simp] lemma Vec3F.sub_comp (a b : Vec3F) :
    a - b = ⟨a.x - b.x, a.y - b.y, a.z - b.z⟩ := rfl

@[simp] lemma Vec3F.smul_comp (s : F) (v : Vec3F) :
    s * v = (⟨s * v.x, s * v.y, s * v.z⟩ : Vec3F) := rfl

@[simp] lemma Vec3F.mul_scalar_comp (v : Vec3F) (s : F) :
    v * s = (⟨v.x * s, v.y * s, v.z * s⟩ : Vec3F) := rfl

@[simp] lemma Vec3F.div_scalar_comp (v : Vec3F) (s : F) :
    v / s = (⟨v.x / s, v.y / s, v.z / s⟩ : Vec3F) := rfl

/-- Modelled from the spec: componentwise negation (`Vec3::reverse`). -/
noncomputable def Vec3F.reverse (a : Vec3F) : Vec3F := ⟨-a.x, -a.y, -a.z⟩

/-- Modelled from the spec: dot product over NaN-aware scalars. -/
noncomputable def Vec3F.dot (a b : Vec3F) : F :=
  a.x * b.x + a.y * b.y + a.z * b.z

/-- Modelled from the spec: cross product over NaN-aware scalars. -/
noncomputable def Vec3F.cross (a b : Vec3F) : Vec3F :=
  ⟨a.y * b.z - a.z * b.y, a.z * b.x - a.x * b.z, a.x * b.y - a.y * b.x⟩

/-- Modelled from the spec: Euclidean length over NaN-aware scalars. -/
noncomputable def Vec3F.length (a : Vec3F) : F := F.sqrt (a.dot a)

/-- Modelled from the spec: normalization `v / |v|` over NaN-aware
scalars. -/
noncomputable def Vec3F.unit (a : Vec3F) : Vec3F := a / a.length

/-- The all-NaN vector. -/
def nanVec : Vec3F := ⟨F.nan, F.nan, F.nan⟩

/-- The `Camera` struct over NaN-aware scalars. -/
structure CameraF where
  eye : Vec3F
  width : F
  height : F
  pixel_start : Vec3F
  delta_u : Vec3F
  delta_v : Vec3F
  sample_num : ℕ
  reflect_depth : ℕ
  defocus_angle : F
  disk_u : Vec3F
  disk_v : Vec3F

namespace DeriveF

/-- Rust `f64::to_radians` over NaN-aware scalars. -/
noncomputable def toRadiansF (x : F) : F := x * F.fin (Real.pi / 180)

/-- Line 35 over NaN-aware scalars. -/
noncomputable def heightF : F :=
  F.floor (F.fmax (F.fin WIDTH / F.fin ASPECT_RATIO) (F.fin 1))

/-- Line 39. -/
noncomputable def theta : F := toRadiansF (F.fin V_FOV)

/-- Line 40. -/
noncomputable def hTan : F := F.tan (theta / F.fin 2)

/-- Line 41. -/
noncomputable def viewport_height : F := F.fin 2 * hTan * F.fin FOCUS_DIST

/-- Line 42. -/
noncomputable def viewport_width : F := viewport_height * F.fin ASPECT_RATIO

/-- Line 44. -/
def vupF : Vec3F := ⟨F.fin 0, F.fin 1, F.fin 0⟩

/-- Line 45. -/
noncomputable def w (look_from look_at : Vec3F) : Vec3F := (look_from - look_at).unit

/-- Line 46. -/
noncomputable def u (look_from look_at : Vec3F) : Vec3F :=
  (vupF.cross (w look_from look_at)).unit

/-- Line 47. -/
noncomputable def v (look_from look_at : Vec3F) : Vec3F :=
  (w look_from look_at).cross (u look_from look_at)

/-- Line 49. -/
noncomputable def viewport_u (look_from look_at : Vec3F) : Vec3F :=
  viewport_width * u look_from look_at

/-- Line 50. -/
noncomputable def viewport_v (look_from look_at : Vec3F) : Vec3F :=
  viewport_height * (v look_from look_at).reverse

/-- Line 52. -/
noncomputable def delta_u (look_from look_at : Vec3F) : Vec3F :=
  viewport_u look_from look_at / F.fin WIDTH

/-- Line 53. -/
noncomputable def delta_v (look_from look_at : Vec3F) : Vec3F :=
  viewport_v look_from look_at / heightF

/-- Line 54. -/
noncomputable def viewport_upper_left (look_from look_at : Vec3F) : Vec3F :=
  look_from - F.fin FOCUS_DIST * w look_from look_at
    - viewport_u look_from look_at / F.fin 2 - viewport_v look_from look_at / F.fin 2

/-- Line 55. -/
noncomputable def start (look_from look_at : Vec3F) : Vec3F :=
  viewport_upper_left look_from look_at
    + (delta_u look_from look_at + delta_v look_from look_at) / F.fin 2

/-- Line 57. -/
noncomputable def defocus_radius : F :=
  F.fin FOCUS_DIST * F.tan (toRadiansF (F.fin DEFOCUS_ANGLE / F.fin 2))

/-- Line 58. -/
noncomputable def defocus_disk_u (look_from look_at : Vec3F) : Vec3F :=
  u look_from look_at * defocus_radius

/-- Line 59. -/
noncomputable def defocus_disk_v (look_from look_at : Vec3F) : Vec3F :=
  v look_from look_at * defocus_radius

end DeriveF

/-- `Camera::new` over NaN-aware scalars (camera.rs lines 33-74). -/
noncomputable def CameraF.new (look_from look_at : Vec3F) : CameraF :=
  ⟨look_from,
   F.fin WIDTH,
   DeriveF.heightF,
   DeriveF.start look_from look_at,
   DeriveF.delta_u look_from look_at,
   DeriveF.delta_v look_from look_at,
   SAMPLE_NUM,
   REFLECT_DEPTH,
   F.fin DEFOCUS_ANGLE,
   DeriveF.defocus_disk_u look_from look_at,
   DeriveF.defocus_disk_v look_from look_at⟩

lemma unit_zero_nan : (⟨F.fin 0, F.fin 0, F.fin 0⟩ : Vec3F).unit = nanVec := by
  simp [Vec3F.unit, Vec3F.length, Vec3F.dot, nanVec]

lemma unit_nanVec : nanVec.unit = nanVec := by
  simp [Vec3F.unit, Vec3F.length, Vec3F.dot, nanVec]

lemma cross_nanVec_right (a : Vec3F) : a.cross nanVec = nanVec := by
  simp [Vec3F.cross, nanVec]

lemma cross_nanVec_left (a : Vec3F) : nanVec.cross a = nanVec := by
  simp [Vec3F.cross, nanVec]

lemma smul_nanVec (s : F) : s * nanVec = nanVec := by simp [nanVec]

lemma nanVec_mul (s : F) : nanVec * s = nanVec := by simp [nanVec]

lemma nanVec_div (s : F) : nanVec / s = nanVec := by simp [nanVec]

lemma reverse_nanVec : nanVec.reverse = nanVec := by simp [Vec3F.reverse, nanVec]

lemma sub_nanVec (a : Vec3F) : a - nanVec = nanVec := by simp [nanVec]

lemma nanVec_sub (a : Vec3F) : nanVec - a = nanVec := by simp [nanVec]

lemma add_nanVec (a : Vec3F) : a + nanVec = nanVec := by simp [nanVec]

lemma nanVec_add (a : Vec3F) : nanVec + a = nanVec := by simp [nanVec]

/-- C10: `Camera::new` validates nothing and is total — in this embedding a
plain function into `CameraF` with no error channel, mirroring the
panic-free Rust constructor — and in both degenerate cases
(`look_from == look_at`, and a view direction parallel to the world up
vector `(0, 1, 0)`) the zero-length normalization produces NaN in every
component of the derived fields `pixel_start`, `delta_u`, `delta_v`,
`disk_u`, `disk_v`, silently stored in the returned camera. -/
theorem camera_new_degenerate_nan :
    (∀ a b c : ℝ,
      (CameraF.new ⟨F.fin a, F.fin b, F.fin c⟩ ⟨F.fin a, F.fin b, F.fin c⟩).pixel_start = nanVec ∧
      (CameraF.new ⟨F.fin a, F.fin b, F.fin c⟩ ⟨F.fin a, F.fin b, F.fin c⟩).delta_u = nanVec ∧
      (CameraF.new ⟨F.fin a, F.fin b, F.fin c⟩ ⟨F.fin a, F.fin b, F.fin c⟩).delta_v = nanVec ∧
      (CameraF.new ⟨F.fin a, F.fin b, F.fin c⟩ ⟨F.fin a, F.fin b, F.fin c⟩).disk_u = nanVec ∧
      (CameraF.new ⟨F.fin a, F.fin b, F.fin c⟩ ⟨F.fin a, F.fin b, F.fin c⟩).disk_v = nanVec) ∧
    (∀ x y z d : ℝ, d ≠ 0 →
      (CameraF.new ⟨F.fin x, F.fin (y + d), F.fin z⟩ ⟨F.fin x, F.fin y, F.fin z⟩).pixel_start = nanVec ∧
      (CameraF.new ⟨F.fin x, F.fin (y + d), F.fin z⟩ ⟨F.fin x, F.fin y, F.fin z⟩).delta_u = nanVec ∧
      (CameraF.new ⟨F.fin x, F.fin (y + d), F.fin z⟩ ⟨F.fin x, F.fin y, F.fin z⟩).delta_v = nanVec ∧
      (CameraF.new ⟨F.fin x, F.fin (y + d), F.fin z⟩ ⟨F.fin x, F.fin y, F.fin z⟩).disk_u = nanVec ∧
      (CameraF.new ⟨F.fin x, F.fin (y + d), F.fin z⟩ ⟨F.fin x, F.fin y, F.fin z⟩).disk_v = nanVec) := by
  constructor
  · intro a b c
    have hp : (⟨F.fin a, F.fin b, F.fin c⟩ : Vec3F) - ⟨F.fin a, F.fin b, F.fin c⟩
        = ⟨F.fin 0, F.fin 0, F.fin 0⟩ := by simp
    have hw : DeriveF.w ⟨F.fin a, F.fin b, F.fin c⟩ ⟨F.fin a, F.fin b, F.fin c⟩ = nanVec := by
      rw [DeriveF.w, hp, unit_zero_nan]
    have hu : DeriveF.u ⟨F.fin a, F.fin b, F.fin c⟩ ⟨F.fin a, F.fin b, F.fin c⟩ = nanVec := by
      rw [DeriveF.u, hw, cross_nanVec_right, unit_nanVec]
    have hv : DeriveF.v ⟨F.fin a, F.fin b, F.fin c⟩ ⟨F.fin a, F.fin b, F.fin c⟩ = nanVec := by
      rw [DeriveF.v, hw, hu, cross_nanVec_right]
    refine ⟨?_, ?_, ?_, ?_, ?_⟩ <;>
      simp [CameraF.new, DeriveF.start, DeriveF.viewport_upper_left,
        DeriveF.delta_u, DeriveF.delta_v, DeriveF.viewport_u, DeriveF.viewport_v,
        DeriveF.defocus_disk_u, DeriveF.defocus_disk_v, hw, hu, hv,
        Vec3F.reverse, nanVec]
  · intro x y z d hd
    have hsub : (⟨F.fin x, F.fin (y + d), F.fin z⟩ : Vec3F) - ⟨F.fin x, F.fin y, F.fin z⟩
        = ⟨F.fin 0, F.fin d, F.fin 0⟩ := by simp
    have hsq : Real.sqrt (d * d) ≠ 0 := by
      rw [Real.sqrt_ne_zero']
      exact mul_self_pos.mpr hd
    have hdot : (⟨F.fin 0, F.fin d, F.fin 0⟩ : Vec3F).dot ⟨F.fin 0, F.fin d, F.fin 0⟩
        = F.fin (d * d) := by simp [Vec3F.dot]
    have hw : DeriveF.w ⟨F.fin x, F.fin (y + d), F.fin z⟩ ⟨F.fin x, F.fin y, F.fin z⟩
        = ⟨F.fin 0, F.fin (d / Real.sqrt (d * d)), F.fin 0⟩ := by
      rw [DeriveF.w, hsub, Vec3F.unit, Vec3F.length, hdot, F.sqrt_fin,
        if_neg (not_lt.mpr (mul_self_nonneg d))]
      simp [if_neg hsq]
    have hcross : DeriveF.vupF.cross ⟨F.fin 0, F.fin (d / Real.sqrt (d * d)), F.fin 0⟩
        = ⟨F.fin 0, F.fin 0, F.fin 0⟩ := by
      simp [Vec3F.cross, DeriveF.vupF]
    have hu : DeriveF.u ⟨F.fin x, F.fin (y + d), F.fin z⟩ ⟨F.fin x, F.fin y, F.fin z⟩
        = nanVec := by
      rw [DeriveF.u, hw, hcross, unit_zero_nan]
    have hv : DeriveF.v ⟨F.fin x, F.fin (y + d), F.fin z⟩ ⟨F.fin x, F.fin y, F.fin z⟩
        = nanVec := by
      rw [DeriveF.v, hu, cross_nanVec_right]
    refine ⟨?_, ?_, ?_, ?_, ?_⟩ <;>
      simp [CameraF.new, DeriveF.start, DeriveF.viewport_upper_left,
        DeriveF.delta_u, DeriveF.delta_v, DeriveF.viewport_u, DeriveF.viewport_v,
        DeriveF.defocus_disk_u, DeriveF.defocus_disk_v, hw, hu, hv,
        Vec3F.reverse, nanVec]

/-- Witness for `camera_new_degenerate_nan`: coincident eye/look-at at the
origin, and a look-at straight below the eye (view direction parallel to
the world up vector). -/
theorem camera_new_degenerate_nan_witness :
    (CameraF.new ⟨F.fin 0, F.fin 0, F.fin 0⟩ ⟨F.fin 0, F.fin 0, F.fin 0⟩).pixel_start = nanVec ∧
    (CameraF.new ⟨F.fin 0, F.fin (0 + 1), F.fin 0⟩ ⟨F.fin 0, F.fin 0, F.fin 0⟩).pixel_start = nanVec :=
  ⟨(camera_new_degenerate_nan.1 0 0 0).1,
    (camera_new_degenerate_nan.2 0 0 0 1 (by simp)).1⟩

end RayTracing
